import Mathlib

/-!
Verification of the dwave-ip integer-to-binary encoding engine.

The repository has two near-duplicate implementations of the engine:
`IntegerQuadraticModel` (file dwaveip/integer_quadratic_model.py) and
`IntegerBQM` (file integer_bqm.py).  Both are embedded here, over an
abstract label type `V` with decidable equality (Python labels are
hashables; the label type is kept disjoint from the kind enum `VarType`,
which matters for the faithful embedding of `IntegerBQM.add_variable`).

Numeric biases are modelled as exact rationals (the Python code works
with floats on integral values of moderate size, where float arithmetic
is exact); expansion coefficients are integers.  Python exceptions are
modelled with `Except`: an operation that raises returns `.error e` and
produces no new state, which is exactly the "model left unchanged"
behaviour of the source, whose validation runs before any mutation.
-/

set_option maxHeartbeats 1000000

/-- Variable kinds, from class VarType (IntEnum) in both source files. -/
inductive VarType : Type where
  | BINARY
  | UINT
  | INT
deriving DecidableEq

/-- Error taxonomy of the engine.  Both source files raise ValueError with
a distinguishing message; the spec names the cases ConfigurationError,
MissingKindError, KindConflictError and UnknownVariableError, which are
modelled as the constructors below.  UnknownVariableError carries the
offending label. -/
inductive ModelError (V : Type) : Type where
  | configuration
  | missingKind
  | kindConflict
  | unknownVariable (label : V)
deriving DecidableEq

/-- A Python numeric value as far as the precision setters are concerned:
either an int or something that is not an int (a float, a string, ...).
`IntegerBQM`'s setters test `isinstance(value, int)`. -/
inductive PyNum : Type where
  | int (n : ℤ)
  | nonInt
deriving DecidableEq

/-- The external collaborator dimod.BinaryQuadraticModel (dimod.BINARY
vartype), modelled from the spec's description of the Binary Quadratic
Model: a linear bias per binary variable, a quadratic bias per unordered
pair of distinct binary variables, and a scalar offset, all merged
additively. -/
@[ext]
structure BinaryQuadraticModel (L : Type) where
  linear : L → ℚ
  quadratic : Sym2 L → ℚ
  offset : ℚ

/-- Empty binary quadratic model: dimod.BinaryQuadraticModel({}, {}, 0.0, dimod.BINARY). -/
def BinaryQuadraticModel.empty {L : Type} : BinaryQuadraticModel L :=
  { linear := fun _ => 0, quadratic := fun _ => 0, offset := 0 }

/-- dimod's add_variable(v, bias): merge `bias` additively into the linear
bias of `v` (a fresh variable starts at bias 0).  The source also uses the
call's return value, which is the label `v` itself; that value is
reconstructed at the call sites. -/
def BinaryQuadraticModel.add_variable {L : Type} [DecidableEq L]
    (b : BinaryQuadraticModel L) (v : L) (bias : ℚ) : BinaryQuadraticModel L :=
  { b with linear := fun x => if x = v then b.linear x + bias else b.linear x }

/-- dimod's add_interaction(u, v, bias): merge `bias` additively into the
quadratic bias of the unordered pair {u, v}. -/
def BinaryQuadraticModel.add_interaction {L : Type} [DecidableEq L]
    (b : BinaryQuadraticModel L) (u v : L) (bias : ℚ) : BinaryQuadraticModel L :=
  { b with quadratic := fun p => if p = Sym2.mk (u, v) then b.quadratic p + bias else b.quadratic p }

/-- dimod's add_offset. -/
def BinaryQuadraticModel.add_offset {L : Type}
    (b : BinaryQuadraticModel L) (x : ℚ) : BinaryQuadraticModel L :=
  { b with offset := b.offset + x }

/-- Lookup in the `_vartype_map` registry (a Python dict keyed by label). -/
def lookup_vartype {V : Type} [DecidableEq V] :
    List (V × VarType) → V → Option VarType
  | [], _ => none
  | (k, t) :: rest, v => if v = k then some t else lookup_vartype rest v

/-- Assignment `self._vartype_map[v] = vartype` of a Python dict: replace
the value in place when the key exists, else append a new entry (dicts
preserve insertion order). -/
def store_vartype {V : Type} [DecidableEq V] :
    List (V × VarType) → V → VarType → List (V × VarType)
  | [], v, t => [(v, t)]
  | (k, t') :: rest, v, t =>
      if v = k then (k, t) :: rest else (k, t') :: store_vartype rest v t

/-- Method _binary_coefficients, identical in both source files.  The
precisions are carried as integers (the stored attribute values); the
embedding is faithful for positive precisions, which is the only regime
the spec admits (for non-positive precisions Python's `range` and `**`
produce empty ranges and float powers).

    if vartype == VarType.BINARY: return [1]
    elif vartype == VarType.UINT: return [2 ** i for i in range(self.uint_precision)]
    elif vartype == VarType.INT:
        return [2 ** i for i in range(self.int_precision - 1)] + [-2 ** (self.int_precision - 1)]

The trailing `else` raises for a kind outside the closed enum and is
unreachable here because `VarType` is exactly that closed enum. -/
def binary_coefficients (uint_precision int_precision : ℤ) : VarType → List ℤ
  | .BINARY => [1]
  | .UINT => (List.range uint_precision.toNat).map fun i => 2 ^ i
  | .INT =>
      ((List.range (int_precision - 1).toNat).map fun i => 2 ^ i)
        ++ [-(2 ^ (int_precision - 1).toNat : ℤ)]

/-- State of class IntegerQuadraticModel (dwaveip/integer_quadratic_model.py):
the wrapped dimod model over sub-variable labels `(label, index)`, the
label-to-kind registry `_vartype_map`, and the two precision attributes. -/
structure IntegerQuadraticModel (V : Type) where
  bqm : BinaryQuadraticModel (V × ℕ)
  vartype_map : List (V × VarType)
  uint_precision : ℤ
  int_precision : ℤ

/-- Freshly constructed IntegerQuadraticModel() with the default
parameters {uint_precision: 4, int_precision: 5}; __init__ assigns them
through the property setters, which always succeed on the empty registry. -/
def IntegerQuadraticModel.init {V : Type} : IntegerQuadraticModel V :=
  { bqm := BinaryQuadraticModel.empty, vartype_map := [], uint_precision := 4, int_precision := 5 }

/-- Property setter uint_precision of IntegerQuadraticModel:

    if not self._vartype_map: self._uint_precision = value
    else: raise ValueError(...)

Note there is no validation of `value` itself in this class. -/
def IntegerQuadraticModel.set_uint_precision {V : Type} (m : IntegerQuadraticModel V)
    (value : ℤ) : Except (ModelError V) (IntegerQuadraticModel V) :=
  if m.vartype_map.isEmpty then .ok { m with uint_precision := value }
  else .error .configuration

/-- Property setter int_precision of IntegerQuadraticModel (same shape as
the uint setter, no validation of the value). -/
def IntegerQuadraticModel.set_int_precision {V : Type} (m : IntegerQuadraticModel V)
    (value : ℤ) : Except (ModelError V) (IntegerQuadraticModel V) :=
  if m.vartype_map.isEmpty then .ok { m with int_precision := value }
  else .error .configuration

/-- Resolution of the vartype argument in IntegerQuadraticModel.add_variable
(lines 126-135):

    if vartype is None:
        if v in self._vartype_map: vartype = self._vartype_map[v]
        else: raise ValueError("Variable not defined previously...")
    else:
        if v in self._vartype_map and vartype != self._vartype_map[v]: raise ValueError(...)
        elif v in self._vartype_map: vartype = self._vartype_map[v]
-/
def IntegerQuadraticModel.resolve_vartype {V : Type} [DecidableEq V]
    (m : IntegerQuadraticModel V) (v : V) (vartype : Option VarType) :
    Except (ModelError V) VarType :=
  match vartype, lookup_vartype m.vartype_map v with
  | none, some stored => .ok stored
  | none, none => .error .missingKind
  | some vt, some stored => if vt ≠ stored then .error .kindConflict else .ok stored
  | some vt, none => .ok vt

/-- Method IntegerQuadraticModel.add_variable (after vartype resolution):

    bc = self._binary_coefficients(vartype)
    self._vartype_map[v] = vartype
    return [self._bqm.add_variable((v, i), bias * c) for i, c in enumerate(bc)]

dimod's add_variable returns its label argument, so the returned list is
[(v, 0), ..., (v, len(bc) - 1)]. -/
def IntegerQuadraticModel.add_variable {V : Type} [DecidableEq V]
    (m : IntegerQuadraticModel V) (v : V) (bias : ℚ) (vartype : Option VarType) :
    Except (ModelError V) (IntegerQuadraticModel V × List (V × ℕ)) :=
  match m.resolve_vartype v vartype with
  | .error e => .error e
  | .ok vt =>
    let bc := binary_coefficients m.uint_precision m.int_precision vt
    .ok ({ m with
            vartype_map := store_vartype m.vartype_map v vt,
            bqm := bc.enum.foldl (fun b ic => b.add_variable (v, ic.1) (bias * (ic.2 : ℚ))) m.bqm },
          bc.enum.map fun ic => (v, ic.1))

/-- Index pairs visited by `for i,j in product(range(len(u_bc)), range(len(v_bc)))`. -/
def interaction_pairs (nu nv : ℕ) : List (ℕ × ℕ) :=
  (List.range nu).flatMap fun i => (List.range nv).map fun j => (i, j)

/-- Body of the interaction loop of IntegerQuadraticModel.add_interaction
(lines 168-172):

    if (i == j) and (u == v): self._bqm.add_variable((u, i), bias * u_bc[i] ** 2)
    else: self._bqm.add_interaction((u, i), (v, j), bias * u_bc[i] * v_bc[j])
-/
def interaction_step {V : Type} [DecidableEq V] (u v : V) (bias : ℚ)
    (u_bc v_bc : List ℤ) (b : BinaryQuadraticModel (V × ℕ)) (ij : ℕ × ℕ) :
    BinaryQuadraticModel (V × ℕ) :=
  if ij.1 = ij.2 ∧ u = v then
    b.add_variable (u, ij.1) (bias * ((u_bc.getD ij.1 0 : ℤ) : ℚ) ^ 2)
  else
    b.add_interaction (u, ij.1) (v, ij.2)
      (bias * ((u_bc.getD ij.1 0 : ℤ) : ℚ) * ((v_bc.getD ij.2 0 : ℤ) : ℚ))

/-- Method IntegerQuadraticModel.add_interaction (lines 157-172): both
labels must be registered (checked in order, each failure naming the
offending label, before anything is mutated), then every index pair of
the two coefficient lists contributes via `interaction_step`. -/
def IntegerQuadraticModel.add_interaction {V : Type} [DecidableEq V]
    (m : IntegerQuadraticModel V) (u v : V) (bias : ℚ) :
    Except (ModelError V) (IntegerQuadraticModel V) :=
  match lookup_vartype m.vartype_map u with
  | none => .error (.unknownVariable u)
  | some u_vartype =>
    match lookup_vartype m.vartype_map v with
    | none => .error (.unknownVariable v)
    | some v_vartype =>
      let u_bc := binary_coefficients m.uint_precision m.int_precision u_vartype
      let v_bc := binary_coefficients m.uint_precision m.int_precision v_vartype
      .ok { m with
              bqm := (interaction_pairs u_bc.length v_bc.length).foldl
                (interaction_step u v bias u_bc v_bc) m.bqm }

/-- State of class IntegerBQM (integer_bqm.py): same shape as
IntegerQuadraticModel, with defaults uint_precision = 15, int_precision = 16. -/
structure IntegerBQM (V : Type) where
  bqm : BinaryQuadraticModel (V × ℕ)
  vartype_map : List (V × VarType)
  uint_precision : ℤ
  int_precision : ℤ

/-- Freshly constructed IntegerBQM() (defaults 15 and 16, assigned through
the validating setters, which succeed on the empty registry). -/
def IntegerBQM.init {V : Type} : IntegerBQM V :=
  { bqm := BinaryQuadraticModel.empty, vartype_map := [], uint_precision := 15, int_precision := 16 }

/-- Property setter uint_precision of IntegerBQM (integer_bqm.py lines 29-35):

    if len(self._vartype_map): raise ValueError(...)
    if not isinstance(value, int) or value <= 0: raise ValueError(...)
    self._uint_precision = value
-/
def IntegerBQM.set_uint_precision {V : Type} (st : IntegerBQM V) (value : PyNum) :
    Except (ModelError V) (IntegerBQM V) :=
  if !st.vartype_map.isEmpty then .error .configuration
  else
    match value with
    | .int n => if 0 < n then .ok { st with uint_precision := n } else .error .configuration
    | .nonInt => .error .configuration

/-- Property setter int_precision of IntegerBQM (integer_bqm.py lines 41-47),
same shape as the uint setter. -/
def IntegerBQM.set_int_precision {V : Type} (st : IntegerBQM V) (value : PyNum) :
    Except (ModelError V) (IntegerBQM V) :=
  if !st.vartype_map.isEmpty then .error .configuration
  else
    match value with
    | .int n => if 0 < n then .ok { st with int_precision := n } else .error .configuration
    | .nonInt => .error .configuration

/-- Method IntegerBQM.add_variable (integer_bqm.py lines 59-81).  The
source tests

    if self._vartype_map.get(vartype, None): ... conflict check ...
    else:
        if vartype is None: raise ValueError("Variable not defined previously...")

that is, it looks the KIND argument up as a KEY of the label-keyed
registry.  With labels drawn from `V`, which is disjoint from the
`VarType` enum, that lookup never finds an entry (and even a found value
would be subjected to a truthiness test), so the first branch and its
conflict check are unreachable: every call reaches the `vartype is None`
test, and a supplied kind is never compared with the stored one.  After
that the method proceeds like IntegerQuadraticModel.add_variable. -/
def IntegerBQM.add_variable {V : Type} [DecidableEq V]
    (st : IntegerBQM V) (v : V) (bias : ℚ) (vartype : Option VarType) :
    Except (ModelError V) (IntegerBQM V × List (V × ℕ)) :=
  match vartype with
  | none => .error .missingKind
  | some vt =>
    let bc := binary_coefficients st.uint_precision st.int_precision vt
    .ok ({ st with
            vartype_map := store_vartype st.vartype_map v vt,
            bqm := bc.enum.foldl (fun b ic => b.add_variable (v, ic.1) (bias * (ic.2 : ℚ))) st.bqm },
          bc.enum.map fun ic => (v, ic.1))

/-- Body of the interaction loop of IntegerBQM.add_interaction
(integer_bqm.py lines 95-99).  Unlike IntegerQuadraticModel, the diagonal
branch reads

    self._bqm.add_variable((u, i), u_bc[i] ** 2)

with no `bias` factor. -/
def ibqm_interaction_step {V : Type} [DecidableEq V] (u v : V) (bias : ℚ)
    (u_bc v_bc : List ℤ) (b : BinaryQuadraticModel (V × ℕ)) (ij : ℕ × ℕ) :
    BinaryQuadraticModel (V × ℕ) :=
  if ij.1 = ij.2 ∧ u = v then
    b.add_variable (u, ij.1) (((u_bc.getD ij.1 0 : ℤ) : ℚ) ^ 2)
  else
    b.add_interaction (u, ij.1) (v, ij.2)
      (bias * ((u_bc.getD ij.1 0 : ℤ) : ℚ) * ((v_bc.getD ij.2 0 : ℤ) : ℚ))

/-- Method IntegerBQM.add_interaction (integer_bqm.py lines 83-99): the
guards are identical to IntegerQuadraticModel.add_interaction; the loop
body differs on the diagonal (see `ibqm_interaction_step`). -/
def IntegerBQM.add_interaction {V : Type} [DecidableEq V]
    (st : IntegerBQM V) (u v : V) (bias : ℚ) :
    Except (ModelError V) (IntegerBQM V) :=
  match lookup_vartype st.vartype_map u with
  | none => .error (.unknownVariable u)
  | some u_vartype =>
    match lookup_vartype st.vartype_map v with
    | none => .error (.unknownVariable v)
    | some v_vartype =>
      let u_bc := binary_coefficients st.uint_precision st.int_precision u_vartype
      let v_bc := binary_coefficients st.uint_precision st.int_precision v_vartype
      .ok { st with
              bqm := (interaction_pairs u_bc.length v_bc.length).foldl
                (ibqm_interaction_step u v bias u_bc v_bc) st.bqm }

/-- First-seen accumulation underlying the OrderedDict `original_variables`
in IntegerQuadraticModel.sample: a name already assigned a position keeps
it, a new name is appended at position `len(original_variables)`. -/
def first_seen_from {V : Type} [DecidableEq V] (acc : List V) (names : List V) : List V :=
  names.foldl (fun a x => if x ∈ a then a else a ++ [x]) acc

/-- Keys of `original_variables` after the whole loop: the distinct
original labels of the result's variable list in first-seen order. -/
def first_seen {V : Type} [DecidableEq V] (vars : List (V × ℕ)) : List V :=
  first_seen_from [] (vars.map Prod.fst)

/-- Position of a label in a key list; `idx_of a ov` is the stored value
`original_variables[a]` when `a ∈ ov`. -/
def idx_of {V : Type} [DecidableEq V] (a : V) : List V → ℕ
  | [] => 0
  | b :: l => if a = b then 0 else idx_of a l + 1

/-- Coefficient `bc[var[1]]` with `bc = self._binary_coefficients(self._vartype_map[var[0]])`
for a sub-variable label `var = (label, index)`.  The source raises
KeyError for an unregistered label and IndexError for an index outside
`bc`; both failure points are collected in the guard `var_ok` below, so
the defaults taken here are never exercised on the success path. -/
def sub_coefficient {V : Type} [DecidableEq V] (m : IntegerQuadraticModel V) (x : V × ℕ) : ℤ :=
  (binary_coefficients m.uint_precision m.int_precision
    ((lookup_vartype m.vartype_map x.1).getD .BINARY)).getD x.2 0

/-- Guard for one sub-variable of the result's variable list: its label is
registered and its index lies inside the label's coefficient list. -/
def var_ok {V : Type} [DecidableEq V] (m : IntegerQuadraticModel V) (x : V × ℕ) : Bool :=
  match lookup_vartype m.vartype_map x.1 with
  | none => false
  | some k => decide (x.2 < (binary_coefficients m.uint_precision m.int_precision k).length)

/-- One row of a sampler result's record: the per-column assignment array
plus that row's energy and occurrence count. -/
structure SampleRow where
  sample : List ℚ
  energy : ℚ
  num_occurrences : ℤ
deriving DecidableEq

/-- Default row used by list accessors (out-of-range rows never occur on
the paths the theorems take). -/
def default_row : SampleRow :=
  { sample := [], energy := 0, num_occurrences := 0 }

/-- A dimod.SampleSet as far as this engine observes and produces it: a
record table of rows, the ordered variable labels matching the record's
columns, the info blob and the value-type tag (the latter two are opaque
pass-through data, modelled by type parameters). -/
structure SampleSet (L : Type) (I : Type) (T : Type) where
  record : List SampleRow
  variable_labels : List L
  info : I
  vartype : T

/-- One iteration of the reconstruction loop in IntegerQuadraticModel.sample
(lines 213-219), at enumerated entry `iv = (i, var)`:

    varname = var[0]
    if varname not in original_variables: original_variables[varname] = len(original_variables)
    ind = original_variables[varname]
    bc = self._binary_coefficients(self._vartype_map[varname])
    reconstructed_samples[:, ind] += record['sample'][:, i] * bc[var[1]]

The reconstruction matrix is a function of (row, column); the column
update adds `sample-bit * coefficient` simultaneously in every row, as the
vectorised numpy statement does.  `samples` is the fixed list of the
record's per-row assignment arrays. -/
def recon_step {V : Type} [DecidableEq V] (m : IntegerQuadraticModel V)
    (samples : List (List ℚ)) (st : List V × (ℕ → ℕ → ℚ)) (iv : ℕ × (V × ℕ)) :
    List V × (ℕ → ℕ → ℚ) :=
  let varname := iv.2.1
  let ov := if varname ∈ st.1 then st.1 else st.1 ++ [varname]
  let ind := idx_of varname ov
  (ov, fun r col =>
    if col = ind then st.2 r col + (samples.getD r []).getD iv.1 0 * ((sub_coefficient m iv.2 : ℤ) : ℚ)
    else st.2 r col)

/-- The whole reconstruction loop `for i, var in enumerate(variables)`,
starting from an empty OrderedDict and the float64 zero matrix
`np.zeros((record.shape[0], len(self._vartype_map)))` (the matrix is a
total function; its width `len(self._vartype_map)` is enforced where the
matrix is written into the new record, see `process_sampleset`). -/
def recon_loop {V : Type} [DecidableEq V] (m : IntegerQuadraticModel V)
    (samples : List (List ℚ)) (vars : List (V × ℕ)) : List V × (ℕ → ℕ → ℚ) :=
  vars.enum.foldl (recon_step m samples) ([], fun _ _ => 0)

/-- Width in bits of the numpy dtype the reconstructed samples are stored
into: line 221 declares the record field ('sample', 'i', ...), and numpy's
'i' is the 32-bit signed C int. -/
def record_sample_dtype_bits : ℕ := 32

/-- Whether an integer value fits the 'sample' record column's fixed-width
signed integer dtype without truncation. -/
def dtype_can_hold (z : ℤ) : Prop :=
  -(2 ^ (record_sample_dtype_bits - 1)) ≤ z ∧ z ≤ 2 ^ (record_sample_dtype_bits - 1) - 1

/-- Method IntegerQuadraticModel.sample after the sampler call (lines
206-227).  The guard collects the failure points of the source: KeyError
at `self._vartype_map[varname]` and IndexError at `bc[var[1]]` for a
sub-variable that is not one of a registered variable (`var_ok`), and the
shape requirement of `new_record['sample'] = reconstructed_samples` (the
zero matrix has `len(self._vartype_map)` columns while the new record's
sample field has `len(original_variables)`, so the numbers of distinct
seen labels and of registered labels must agree).  On failure the source
raises out of `sample` and no result set is produced, modelled as `none`.
Each new row carries the reconstructed vector (one column per first-seen
original label) and the original row's energy and occurrence count;
info and vartype are passed through unchanged.  Values are modelled in
exact arithmetic; the store into the fixed-width integer column of the
new record is analysed separately through `record_sample_dtype_bits`. -/
def IntegerQuadraticModel.process_sampleset {V I T : Type} [DecidableEq V]
    (m : IntegerQuadraticModel V) (ss : SampleSet (V × ℕ) I T) :
    Option (SampleSet V I T) :=
  if ss.variable_labels.all (var_ok m) && ((first_seen ss.variable_labels).length == m.vartype_map.length)
  then
    let res := recon_loop m (ss.record.map SampleRow.sample) ss.variable_labels
    some { record := ss.record.enum.map fun ir =>
             { sample := (List.range res.1.length).map fun col => res.2 ir.1 col,
               energy := ir.2.energy,
               num_occurrences := ir.2.num_occurrences },
           variable_labels := res.1,
           info := ss.info,
           vartype := ss.vartype }
  else none

/-- Method IntegerQuadraticModel.sample: invoke the (opaque) sampler on
the wrapped binary quadratic model, then reconstruct. -/
def IntegerQuadraticModel.sample {V I T : Type} [DecidableEq V]
    (m : IntegerQuadraticModel V)
    (sampler : BinaryQuadraticModel (V × ℕ) → SampleSet (V × ℕ) I T) :
    Option (SampleSet V I T) :=
  m.process_sampleset (sampler m.bqm)

/-- Wellformedness of a sampler result for a model, as the sampling claims
assume it: every listed variable is a sub-label `(label, i)` of a
registered variable with `i` inside the label's expansion, every
registered label occurs among the listed labels (the spec's step 1: the
result assigns every binary sub-variable; together with the previous
condition this is the record-shape equality the source needs), the record
is rectangular, and all assignment values are 0/1. -/
def sampleset_wellformed {V I T : Type} [DecidableEq V]
    (m : IntegerQuadraticModel V) (ss : SampleSet (V × ℕ) I T) : Prop :=
  ss.variable_labels.all (var_ok m) = true
  ∧ (first_seen ss.variable_labels).length = m.vartype_map.length
  ∧ (∀ row ∈ ss.record, row.sample.length = ss.variable_labels.length)
  ∧ (∀ row ∈ ss.record, ∀ q ∈ row.sample, q = 0 ∨ q = 1)

/-- The value the claims predict for label `l` in row `r`: the sum, over
the positions of `l`'s sub-variables in the result's variable list, of
the assignment bit times the corresponding expansion coefficient of `l`'s
registered kind. -/
def row_label_total {V I T : Type} [DecidableEq V] (m : IntegerQuadraticModel V)
    (ss : SampleSet (V × ℕ) I T) (r : ℕ) (l : V) : ℚ :=
  (ss.variable_labels.enum.map fun iv =>
    if iv.2.1 = l
    then ((ss.record.getD r default_row).sample).getD iv.1 0 * ((sub_coefficient m iv.2 : ℤ) : ℚ)
    else 0).sum

/-- Integer-valued counterpart of `row_label_total`, with each 0/1
assignment bit read as the integer 0 or 1: the exact integer the
reconstruction denotes. -/
def int_row_label_total {V I T : Type} [DecidableEq V] (m : IntegerQuadraticModel V)
    (ss : SampleSet (V × ℕ) I T) (r : ℕ) (l : V) : ℤ :=
  (ss.variable_labels.enum.map fun iv =>
    if iv.2.1 = l
    then (if ((ss.record.getD r default_row).sample).getD iv.1 0 = 1 then (1 : ℤ) else 0)
           * sub_coefficient m iv.2
    else 0).sum

/-- Value of label `l` in row `r` of a reconstruction result: the entry of
the row's sample vector at `l`'s output column (its first-seen position in
the result's variable order). -/
def out_sample_value {V I T : Type} [DecidableEq V]
    (o : Option (SampleSet V I T)) (r : ℕ) (l : V) : ℚ :=
  match o with
  | none => 0
  | some out => ((out.record.getD r default_row).sample).getD (idx_of l out.variable_labels) 0

/-- Everything claim C2 asserts of a reconstruction result, bundled. -/
def sample_reconstruction_spec {V I T : Type} [DecidableEq V]
    (m : IntegerQuadraticModel V) (ss : SampleSet (V × ℕ) I T) : Prop :=
  ∃ out, m.process_sampleset ss = some out
    ∧ out.variable_labels = first_seen ss.variable_labels
    ∧ out.variable_labels.Nodup
    ∧ out.record.length = ss.record.length
    ∧ out.info = ss.info
    ∧ out.vartype = ss.vartype
    ∧ (∀ r, r < ss.record.length →
        (out.record.getD r default_row).energy = (ss.record.getD r default_row).energy
        ∧ (out.record.getD r default_row).num_occurrences
            = (ss.record.getD r default_row).num_occurrences)
    ∧ (∀ r, r < ss.record.length → ∀ l ∈ first_seen ss.variable_labels,
        ((out.record.getD r default_row).sample).getD (idx_of l out.variable_labels) 0
          = row_label_total m ss r l)

/-- Projection of a computation's resulting linear bias at a sub-variable,
0 when the computation failed (used to evaluate concrete runs). -/
def ibqm_linear_of {V : Type} (r : Except (ModelError V) (IntegerBQM V)) (x : V × ℕ) : ℚ :=
  match r with
  | .ok st => st.bqm.linear x
  | .error _ => 0

/-- Projection like `ibqm_linear_of` for IntegerQuadraticModel runs. -/
def iqm_linear_of {V : Type} (r : Except (ModelError V) (IntegerQuadraticModel V)) (x : V × ℕ) : ℚ :=
  match r with
  | .ok st => st.bqm.linear x
  | .error _ => 0

/-- Whether a call succeeded. -/
def call_succeeds {V α : Type} (r : Except (ModelError V) α) : Bool :=
  match r with
  | .ok _ => true
  | .error _ => false

/-- Registered kind of a label after an IntegerBQM.add_variable run
(`none` when the call failed). -/
def ibqm_vartype_after {V : Type} [DecidableEq V]
    (r : Except (ModelError V) (IntegerBQM V × List (V × ℕ))) (v : V) : Option VarType :=
  match r with
  | .ok p => lookup_vartype p.1.vartype_map v
  | .error _ => none

/-- IntegerBQM state with the label 0 registered as BINARY with zero bias
(the add_variable call succeeds; the fallback arm is unreachable). -/
def ibqm_c1_state : IntegerBQM ℕ :=
  match IntegerBQM.init.add_variable 0 0 (some .BINARY) with
  | .ok p => p.1
  | .error _ => IntegerBQM.init

/-- IntegerQuadraticModel state with the label 0 registered as BINARY with
zero bias (the add_variable call succeeds; the fallback arm is unreachable). -/
def iqm_c1_state : IntegerQuadraticModel ℕ :=
  match IntegerQuadraticModel.init.add_variable 0 0 (some .BINARY) with
  | .ok p => p.1
  | .error _ => IntegerQuadraticModel.init

/-- IntegerBQM state with the label 0 registered as UINT (bias 1). -/
def ibqm_c4_state : IntegerBQM ℕ :=
  match IntegerBQM.init.add_variable 0 1 (some .UINT) with
  | .ok p => p.1
  | .error _ => IntegerBQM.init

/-- IntegerQuadraticModel state with the label 0 registered as UINT (bias 1). -/
def iqm_c4_state : IntegerQuadraticModel ℕ :=
  match IntegerQuadraticModel.init.add_variable 0 1 (some .UINT) with
  | .ok p => p.1
  | .error _ => IntegerQuadraticModel.init

/-- IntegerQuadraticModel state with one registered variable (used to
exercise the frozen-precision behaviour). -/
def iqm_c7_state : IntegerQuadraticModel ℕ :=
  { bqm := BinaryQuadraticModel.empty, vartype_map := [(0, .BINARY)],
    uint_precision := 4, int_precision := 5 }

/-- IntegerBQM state with one registered variable. -/
def ibqm_c7_state : IntegerBQM ℕ :=
  { bqm := BinaryQuadraticModel.empty, vartype_map := [(0, .BINARY)],
    uint_precision := 15, int_precision := 16 }

/-- IntegerQuadraticModel state with two registered variables of different
kinds (for the symmetry of add_interaction). -/
def iqm_c10_state : IntegerQuadraticModel ℕ :=
  { bqm := BinaryQuadraticModel.empty, vartype_map := [(0, .BINARY), (1, .UINT)],
    uint_precision := 2, int_precision := 5 }

/-- IntegerQuadraticModel state with one UINT variable at precision 2
(reconstruction examples). -/
def iqm_c2_state : IntegerQuadraticModel ℕ :=
  { bqm := BinaryQuadraticModel.empty, vartype_map := [(0, .UINT)],
    uint_precision := 2, int_precision := 5 }

/-- A concrete sampler result for `iqm_c2_state`: one row assigning both
sub-variables of label 0 the value 1. -/
def ss_c2 : SampleSet (ℕ × ℕ) Unit Unit :=
  { record := [{ sample := [1, 1], energy := 3, num_occurrences := 2 }],
    variable_labels := [(0, 0), (0, 1)], info := (), vartype := () }

/-- IntegerQuadraticModel state with one INT variable at precision 3
(reconstruction examples). -/
def iqm_c9_state : IntegerQuadraticModel ℕ :=
  { bqm := BinaryQuadraticModel.empty, vartype_map := [(0, .INT)],
    uint_precision := 4, int_precision := 3 }

/-- A concrete sampler result for `iqm_c9_state`: one row assigning bits
1, 0, 1, which reconstructs to 1 - 4 = -3. -/
def ss_c9 : SampleSet (ℕ × ℕ) Unit Unit :=
  { record := [{ sample := [1, 0, 1], energy := 0, num_occurrences := 1 }],
    variable_labels := [(0, 0), (0, 1), (0, 2)], info := (), vartype := () }

/-- Everything claim C5 asserts of a successful add_variable call with
resolved kind `K`, first with bias `b1` and then again on the same label
with the kind omitted and bias `b2`, bundled: the returned sub-label list
is `[(v, 0), ..., (v, k-1)]` for `k` the expansion length, each
sub-variable's linear bias is additively merged with `bias * coefficient`,
nothing else of the wrapped model changes, and the two calls accumulate
to `(b1 + b2) * coefficient`. -/
def add_variable_spec {V : Type} [DecidableEq V] (m : IntegerQuadraticModel V)
    (v : V) (b1 b2 : ℚ) (vt : Option VarType) (K : VarType) : Prop :=
  ∃ m' ret, m.add_variable v b1 vt = .ok (m', ret)
    ∧ ret = (List.range (binary_coefficients m.uint_precision m.int_precision K).length).map
        (fun i => (v, i))
    ∧ ret.length = (binary_coefficients m.uint_precision m.int_precision K).length
    ∧ (∀ i, i < (binary_coefficients m.uint_precision m.int_precision K).length →
        m'.bqm.linear (v, i) = m.bqm.linear (v, i)
          + b1 * ((binary_coefficients m.uint_precision m.int_precision K).getD i 0 : ℚ))
    ∧ m'.bqm.quadratic = m.bqm.quadratic
    ∧ m'.bqm.offset = m.bqm.offset
    ∧ ∃ m'' ret2, m'.add_variable v b2 none = .ok (m'', ret2)
      ∧ ∀ i, i < (binary_coefficients m.uint_precision m.int_precision K).length →
          m''.bqm.linear (v, i) = m.bqm.linear (v, i)
            + (b1 + b2) * ((binary_coefficients m.uint_precision m.int_precision K).getD i 0 : ℚ)

/-- Everything the amended C9 asserts, bundled: reconstruction of a
wellformed result is exactly the integer dot product of assignment bits
and coefficients (no rounding), and the fixed 32-bit record dtype can
hold `2^max(uint_precision, int_precision)` whenever both precisions are
at most 30 (the defaults 4 and 5 qualify). -/
def sample_exactness_width_spec {V I T : Type} [DecidableEq V]
    (m : IntegerQuadraticModel V) (ss : SampleSet (V × ℕ) I T) : Prop :=
  (∀ r, r < ss.record.length → ∀ l ∈ first_seen ss.variable_labels,
    out_sample_value (m.process_sampleset ss) r l = ((int_row_label_total m ss r l : ℤ) : ℚ))
  ∧ (m.uint_precision.toNat ≤ 30 → m.int_precision.toNat ≤ 30 →
      dtype_can_hold (2 ^ max m.uint_precision.toNat m.int_precision.toNat))

/-- IntegerQuadraticModel at the accepted configuration uint_precision =
32 (reachable through the setter on a fresh model) with one registered
UINT label. -/
def iqm_c2_wide : IntegerQuadraticModel ℕ :=
  { bqm := BinaryQuadraticModel.empty, vartype_map := [(0, .UINT)],
    uint_precision := 32, int_precision := 5 }

/-- A wellformed sampler result for `iqm_c2_wide`: all 32 sub-variables of
label 0 listed, one row assigning 1 only to bit 31, so the label's
reconstructed value is the coefficient 2^31. -/
def ss_c2_wide : SampleSet (ℕ × ℕ) Unit Unit :=
  { record := [{ sample := (List.range 32).map fun i => if i = 31 then (1 : ℚ) else 0,
                 energy := 0, num_occurrences := 1 }],
    variable_labels := (List.range 32).map fun i => (0, i), info := (), vartype := () }

/-- C3: for every positive-integer precision, the expansion coefficient
list is [1] for kind BINARY; [2^0, ..., 2^(P-1)] (length P) for kind UINT
with uint_precision = P; and [2^0, ..., 2^(P-2), -2^(P-1)] (length P) for
kind INT with int_precision = P. -/
theorem c3_expansion_coefficients (up ip : ℤ) (_hup : 0 < up) (hip : 0 < ip) :
    binary_coefficients up ip .BINARY = [1]
    ∧ (binary_coefficients up ip .UINT).length = up.toNat
    ∧ (∀ k, k < up.toNat → (binary_coefficients up ip .UINT).getD k 0 = 2 ^ k)
    ∧ (binary_coefficients up ip .INT).length = ip.toNat
    ∧ (∀ k, k < ip.toNat - 1 → (binary_coefficients up ip .INT).getD k 0 = 2 ^ k)
    ∧ (binary_coefficients up ip .INT).getD (ip.toNat - 1) 0 = -(2 ^ (ip.toNat - 1) : ℤ) := by
  have hip1 : (ip - 1).toNat = ip.toNat - 1 := by omega
  refine ⟨rfl, ?_, ?_, ?_, ?_, ?_⟩
  · simp [binary_coefficients]
  · intro k hk
    simp [binary_coefficients, List.getD_eq_getElem?_getD, List.getElem?_map,
      List.getElem?_range, hk]
  · simp [binary_coefficients]
    omega
  · intro k hk
    simp [binary_coefficients, List.getD_eq_getElem?_getD, hip1, List.getElem?_append,
      List.getElem?_map, List.getElem?_range, hk]
  · have hlen : ((List.range (ip - 1).toNat).map fun i => (2 : ℤ) ^ i).length = ip.toNat - 1 := by
      simp
    simp [binary_coefficients, List.getD_eq_getElem?_getD, List.getElem?_append_right,
      hlen, hip1]

/-- Witness for C3 at precisions 3 and 3: selected coefficients of each
kind, obtained from the theorem at concrete inputs. -/
theorem c3_expansion_coefficients_witness :
    (0 : ℤ) < 3
    ∧ binary_coefficients 3 3 .BINARY = [1]
    ∧ (binary_coefficients 3 3 .UINT).length = 3
    ∧ (binary_coefficients 3 3 .UINT).getD 1 0 = 2
    ∧ (binary_coefficients 3 3 .INT).length = 3
    ∧ (binary_coefficients 3 3 .INT).getD 1 0 = 2
    ∧ (binary_coefficients 3 3 .INT).getD 2 0 = -4 :=
  have h := c3_expansion_coefficients 3 3 (by decide) (by decide)
  ⟨by decide, h.1, h.2.1, h.2.2.1 1 (by decide), h.2.2.2.1,
    h.2.2.2.2.1 1 (by decide), h.2.2.2.2.2⟩

/-- C7: once any variable is registered, assigning either precision fails
with a ConfigurationError regardless of the value, in both classes.  In
this embedding a failing setter returns only the error and no new state,
mirroring the source, whose setters raise before assigning anything, so
the registry, biases, offset and both stored precisions are untouched. -/
theorem c7_precision_frozen_after_registration {V : Type} [DecidableEq V]
    (m : IntegerQuadraticModel V) (hm : m.vartype_map ≠ []) (value : ℤ)
    (st : IntegerBQM V) (hst : st.vartype_map ≠ []) (pv : PyNum) :
    m.set_uint_precision value = .error .configuration
    ∧ m.set_int_precision value = .error .configuration
    ∧ st.set_uint_precision pv = .error .configuration
    ∧ st.set_int_precision pv = .error .configuration := by
  have h1 : m.vartype_map.isEmpty = false := by
    cases h : m.vartype_map with
    | nil => exact absurd h hm
    | cons a l => rfl
  have h2 : st.vartype_map.isEmpty = false := by
    cases h : st.vartype_map with
    | nil => exact absurd h hst
    | cons a l => rfl
  refine ⟨?_, ?_, ?_, ?_⟩
  · simp [IntegerQuadraticModel.set_uint_precision, h1]
  · simp [IntegerQuadraticModel.set_int_precision, h1]
  · simp [IntegerBQM.set_uint_precision, h2]
  · simp [IntegerBQM.set_int_precision, h2]

/-- Witness for C7 on concrete one-variable states. -/
theorem c7_precision_frozen_witness :
    iqm_c7_state.vartype_map ≠ []
    ∧ ibqm_c7_state.vartype_map ≠ []
    ∧ iqm_c7_state.set_uint_precision 7 = .error .configuration
    ∧ ibqm_c7_state.set_int_precision (.int 7) = .error .configuration :=
  have h := c7_precision_frozen_after_registration iqm_c7_state (by decide) 7
    ibqm_c7_state (by decide) (.int 7)
  ⟨by decide, by decide, h.1, h.2.2.2⟩

/-- Counterexample to C8: on a freshly constructed IntegerQuadraticModel
(empty registry) assigning the non-positive value 0 to either precision
does NOT fail — the class validates nothing about the value — whereas the
claim demands a ConfigurationError even on an empty registry. -/
theorem c8_counterexample :
    IntegerQuadraticModel.set_uint_precision (IntegerQuadraticModel.init : IntegerQuadraticModel ℕ) 0
      = .ok { (IntegerQuadraticModel.init : IntegerQuadraticModel ℕ) with uint_precision := 0 }
    ∧ IntegerQuadraticModel.set_int_precision (IntegerQuadraticModel.init : IntegerQuadraticModel ℕ) 0
      = .ok { (IntegerQuadraticModel.init : IntegerQuadraticModel ℕ) with int_precision := 0 } :=
  ⟨rfl, rfl⟩

/-- C8 as amended: the value validation exists only in IntegerBQM, whose
setters reject any value that is not a positive integer (on any registry
state, with a ConfigurationError carrying no new state); the setters of
IntegerQuadraticModel accept every value while the registry is empty. -/
theorem c8_precision_validation_amended {V : Type}
    (st : IntegerBQM V) (pv : PyNum) (hpv : ∀ n : ℤ, pv = .int n → n ≤ 0)
    (m : IntegerQuadraticModel V) (hm : m.vartype_map = []) (value : ℤ) :
    st.set_uint_precision pv = .error .configuration
    ∧ st.set_int_precision pv = .error .configuration
    ∧ m.set_uint_precision value = .ok { m with uint_precision := value }
    ∧ m.set_int_precision value = .ok { m with int_precision := value } := by
  refine ⟨?_, ?_, ?_, ?_⟩
  · unfold IntegerBQM.set_uint_precision
    cases hie : st.vartype_map.isEmpty
    · simp [hie]
    · cases pv with
      | nonInt => simp [hie]
      | int n =>
        have hn : ¬ 0 < n := by have := hpv n rfl; omega
        simp [hie, hn]
  · unfold IntegerBQM.set_int_precision
    cases hie : st.vartype_map.isEmpty
    · simp [hie]
    · cases pv with
      | nonInt => simp [hie]
      | int n =>
        have hn : ¬ 0 < n := by have := hpv n rfl; omega
        simp [hie, hn]
  · simp [IntegerQuadraticModel.set_uint_precision, hm]
  · simp [IntegerQuadraticModel.set_int_precision, hm]

/-- Witness for the amended C8 at the value 0 and a non-integer value. -/
theorem c8_precision_validation_witness :
    IntegerBQM.set_uint_precision (IntegerBQM.init : IntegerBQM ℕ) (.int 0)
      = .error .configuration
    ∧ IntegerBQM.set_int_precision (IntegerBQM.init : IntegerBQM ℕ) .nonInt
      = .error .configuration :=
  ⟨(c8_precision_validation_amended IntegerBQM.init (.int 0)
      (fun n h => by cases h; omega) IntegerQuadraticModel.init rfl 0).1,
   (c8_precision_validation_amended (IntegerBQM.init : IntegerBQM ℕ) .nonInt
      (fun n h => by cases h) (IntegerQuadraticModel.init : IntegerQuadraticModel ℕ) rfl 0).2.1⟩

/-- Code bug behind C1: on the diagonal (u = v, i = j) the claim and
IntegerQuadraticModel add a linear bias of `bias * coefficient^2`, but
IntegerBQM adds `coefficient^2` with the bias dropped.  With label 0
registered BINARY (coefficient 1) and `add_interaction 0 0 2`, the claim
demands 2 * 1^2 = 2; IntegerQuadraticModel produces 2, IntegerBQM
produces 1. -/
theorem c1_diagonal_bias_bug :
    iqm_linear_of (iqm_c1_state.add_interaction 0 0 2) (0, 0) = 2 * (1 : ℚ) ^ 2
    ∧ ibqm_linear_of (ibqm_c1_state.add_interaction 0 0 2) (0, 0) = 1
    ∧ (1 : ℚ) ≠ 2 * (1 : ℚ) ^ 2 := by
  refine ⟨?_, ?_, by norm_num⟩
  · norm_num [iqm_c1_state, IntegerQuadraticModel.init, IntegerQuadraticModel.add_variable,
      IntegerQuadraticModel.resolve_vartype, lookup_vartype, store_vartype, binary_coefficients,
      IntegerQuadraticModel.add_interaction, interaction_pairs, interaction_step,
      BinaryQuadraticModel.add_variable, BinaryQuadraticModel.add_interaction,
      BinaryQuadraticModel.empty, iqm_linear_of, List.enum, List.enumFrom, List.range_succ]
  · norm_num [ibqm_c1_state, IntegerBQM.init, IntegerBQM.add_variable,
      lookup_vartype, store_vartype, binary_coefficients,
      IntegerBQM.add_interaction, interaction_pairs, ibqm_interaction_step,
      BinaryQuadraticModel.add_variable, BinaryQuadraticModel.add_interaction,
      BinaryQuadraticModel.empty, ibqm_linear_of, List.enum, List.enumFrom, List.range_succ]

/-- Code bug behind C4: IntegerBQM.add_variable looks the KIND up in the
label-keyed registry instead of the label, so (a) a registered label with
the kind omitted is rejected as undefined, where the claim (and
IntegerQuadraticModel, whose two conjuncts here behave as the claim
demands) requires success reusing the stored kind, and (b) a conflicting
kind for a registered label is accepted silently and overwrites the
stored kind, where the claim requires a KindConflictError. -/
theorem c4_add_variable_kind_handling_bug :
    ibqm_c4_state.add_variable 0 2 none = .error .missingKind
    ∧ call_succeeds (iqm_c4_state.add_variable 0 2 none) = true
    ∧ ibqm_vartype_after (ibqm_c4_state.add_variable 0 1 (some .INT)) 0 = some .INT
    ∧ iqm_c4_state.add_variable 0 1 (some .INT) = .error .kindConflict := by
  refine ⟨rfl, by decide, by decide, rfl⟩

/-- C6: add_interaction with an unregistered label fails with an
UnknownVariableError carrying the offending label (the first argument is
checked first), in both classes.  The guards run before the loop touches
the model, so a failing call returns only the error and leaves the
registry, the linear and quadratic biases and the offset exactly as they
were — in this embedding no new state is produced at all. -/
theorem c6_add_interaction_unknown_variable {V : Type} [DecidableEq V]
    (m : IntegerQuadraticModel V) (st : IntegerBQM V) (u v : V) (bias : ℚ) :
    (lookup_vartype m.vartype_map u = none →
      m.add_interaction u v bias = .error (.unknownVariable u))
    ∧ (∀ k, lookup_vartype m.vartype_map u = some k →
        lookup_vartype m.vartype_map v = none →
        m.add_interaction u v bias = .error (.unknownVariable v))
    ∧ (lookup_vartype st.vartype_map u = none →
      st.add_interaction u v bias = .error (.unknownVariable u))
    ∧ (∀ k, lookup_vartype st.vartype_map u = some k →
        lookup_vartype st.vartype_map v = none →
        st.add_interaction u v bias = .error (.unknownVariable v)) := by
  refine ⟨?_, ?_, ?_, ?_⟩
  · intro h
    simp [IntegerQuadraticModel.add_interaction, h]
  · intro k h1 h2
    simp [IntegerQuadraticModel.add_interaction, h1, h2]
  · intro h
    simp [IntegerBQM.add_interaction, h]
  · intro k h1 h2
    simp [IntegerBQM.add_interaction, h1, h2]

/-- Witness for C6 on fresh models with nothing registered. -/
theorem c6_add_interaction_unknown_variable_witness :
    IntegerQuadraticModel.add_interaction (IntegerQuadraticModel.init : IntegerQuadraticModel ℕ)
        0 1 5 = .error (.unknownVariable 0)
    ∧ IntegerBQM.add_interaction (IntegerBQM.init : IntegerBQM ℕ)
        0 1 5 = .error (.unknownVariable 0) :=
  ⟨(c6_add_interaction_unknown_variable IntegerQuadraticModel.init IntegerBQM.init 0 1 5).1 rfl,
   (c6_add_interaction_unknown_variable IntegerQuadraticModel.init IntegerBQM.init 0 1 5).2.2.1 rfl⟩

/-- Folding dimod add_variable calls merges each contribution additively
into the linear bias of its target and touches nothing else: the final
linear bias at `x` is the initial one plus the sum of the contributions
aimed at `x`. -/
theorem foldl_add_variable_linear {V : Type} [DecidableEq V] (v : V) (bias : ℚ)
    (L : List (ℕ × ℤ)) (b : BinaryQuadraticModel (V × ℕ)) (x : V × ℕ) :
    (L.foldl (fun b ic => b.add_variable (v, ic.1) (bias * (ic.2 : ℚ))) b).linear x
      = b.linear x + (L.map fun ic => if x = (v, ic.1) then bias * (ic.2 : ℚ) else 0).sum := by
  induction L generalizing b with
  | nil => simp
  | cons a L ih =>
    rw [List.foldl_cons, ih, List.map_cons, List.sum_cons]
    show (if x = (v, a.1) then b.linear x + bias * (a.2 : ℚ) else b.linear x) + _ = _
    by_cases hx : x = (v, a.1)
    · rw [if_pos hx, if_pos hx]
      ring
    · rw [if_neg hx, if_neg hx]
      ring

/-- A fold of dimod add_variable calls leaves the quadratic biases alone. -/
theorem foldl_add_variable_quadratic {V : Type} [DecidableEq V] (v : V) (bias : ℚ)
    (L : List (ℕ × ℤ)) (b : BinaryQuadraticModel (V × ℕ)) :
    (L.foldl (fun b ic => b.add_variable (v, ic.1) (bias * (ic.2 : ℚ))) b).quadratic
      = b.quadratic := by
  induction L generalizing b with
  | nil => rfl
  | cons a L ih => rw [List.foldl_cons, ih]; rfl

/-- A fold of dimod add_variable calls leaves the offset alone. -/
theorem foldl_add_variable_offset {V : Type} [DecidableEq V] (v : V) (bias : ℚ)
    (L : List (ℕ × ℤ)) (b : BinaryQuadraticModel (V × ℕ)) :
    (L.foldl (fun b ic => b.add_variable (v, ic.1) (bias * (ic.2 : ℚ))) b).offset
      = b.offset := by
  induction L generalizing b with
  | nil => rfl
  | cons a L ih => rw [List.foldl_cons, ih]; rfl

/-- Summing an enumerated list's contributions filtered to one index
picks out exactly the entry at that index. -/
theorem enumFrom_if_sum (bc : List ℤ) (f : ℤ → ℚ) :
    ∀ (n i : ℕ), ((bc.enumFrom n).map fun ic => if ic.1 = i then f ic.2 else 0).sum
      = if n ≤ i ∧ i < n + bc.length then f (bc.getD (i - n) 0) else 0 := by
  induction bc with
  | nil =>
    intro n i
    rw [show List.enumFrom n ([] : List ℤ) = [] from rfl, List.map_nil, List.sum_nil,
      if_neg (by simp only [List.length_nil]; omega)]
  | cons a bc ih =>
    intro n i
    rw [show List.enumFrom n (a :: bc) = (n, a) :: List.enumFrom (n + 1) bc from rfl,
      List.map_cons, List.sum_cons, ih (n + 1) i]
    show (if n = i then f a else 0) + _ = _
    by_cases hni : n = i
    · subst hni
      rw [if_pos rfl, if_neg (by omega),
        if_pos (⟨le_refl n, by simp only [List.length_cons]; omega⟩ :
          n ≤ n ∧ n < n + (a :: bc).length), Nat.sub_self, List.getD_cons_zero, add_zero]
    · rw [if_neg hni, zero_add]
      by_cases h4 : n + 1 ≤ i ∧ i < n + 1 + bc.length
      · rw [if_pos h4,
          if_pos (⟨by omega, by simp only [List.length_cons]; omega⟩ :
            n ≤ i ∧ i < n + (a :: bc).length),
          show i - n = (i - (n + 1)) + 1 from by omega, List.getD_cons_succ]
      · rw [if_neg h4, if_neg (by simp only [List.length_cons]; omega)]

/-- The contributions of one add_variable expansion, summed at the target
sub-variable `(v, i)`, collapse to `bias * coefficient[i]`. -/
theorem enum_bias_sum {V : Type} [DecidableEq V] (v : V) (bias : ℚ) (bc : List ℤ) (i : ℕ)
    (hi : i < bc.length) :
    (bc.enum.map fun ic => if ((v, i) : V × ℕ) = (v, ic.1) then bias * (ic.2 : ℚ) else 0).sum
      = bias * (bc.getD i 0 : ℚ) := by
  have hcongr : (bc.enum.map fun ic => if ((v, i) : V × ℕ) = (v, ic.1) then bias * (ic.2 : ℚ) else 0)
      = bc.enum.map fun ic => if ic.1 = i then bias * (ic.2 : ℚ) else 0 := by
    apply List.map_congr_left
    intro ic _
    by_cases h : ic.1 = i
    · simp [h]
    · simp [h, Ne.symm h]
  rw [hcongr, show bc.enum = bc.enumFrom 0 from rfl]
  have h := enumFrom_if_sum bc (fun z => bias * (z : ℚ)) 0 i
  rw [if_pos (⟨Nat.zero_le i, by omega⟩ : 0 ≤ i ∧ i < 0 + bc.length), Nat.sub_zero] at h
  exact h

/-- Store-then-lookup on the registry returns the stored kind. -/
theorem lookup_store_vartype_self {V : Type} [DecidableEq V]
    (mp : List (V × VarType)) (v : V) (t : VarType) :
    lookup_vartype (store_vartype mp v t) v = some t := by
  induction mp with
  | nil => simp [store_vartype, lookup_vartype]
  | cons p rest ih =>
    by_cases h : v = p.1
    · simp [store_vartype, lookup_vartype, h]
    · simp [store_vartype, lookup_vartype, h, ih]

/-- A successful add_variable call computes exactly the expansion fold. -/
theorem add_variable_ok_spec {V : Type} [DecidableEq V]
    (m : IntegerQuadraticModel V) (v : V) (bias : ℚ) (vt : Option VarType) (K : VarType)
    (hres : m.resolve_vartype v vt = .ok K) :
    m.add_variable v bias vt = .ok
      ({ m with
          vartype_map := store_vartype m.vartype_map v K,
          bqm := (binary_coefficients m.uint_precision m.int_precision K).enum.foldl
            (fun b ic => b.add_variable (v, ic.1) (bias * (ic.2 : ℚ))) m.bqm },
        (binary_coefficients m.uint_precision m.int_precision K).enum.map fun ic => (v, ic.1)) := by
  unfold IntegerQuadraticModel.add_variable
  rw [hres]

/-- C5: a successful add_variable call with resolved kind K merges a
linear bias of `bias * coefficient[i]` onto each sub-variable `(v, i)`,
returns the ordered sub-label list `[(v, 0), ..., (v, k-1)]` of the
expansion length, changes nothing else of the wrapped model, and two
successive calls with biases b1 and b2 accumulate to `(b1 + b2) *
coefficient[i]` on every sub-variable. -/
theorem c5_add_variable_effect {V : Type} [DecidableEq V]
    (m : IntegerQuadraticModel V) (v : V) (b1 b2 : ℚ) (vt : Option VarType) (K : VarType)
    (hres : m.resolve_vartype v vt = .ok K) :
    add_variable_spec m v b1 b2 vt K := by
  have h1 := add_variable_ok_spec m v b1 vt K hres
  set bc := binary_coefficients m.uint_precision m.int_precision K with hbc
  set m1 : IntegerQuadraticModel V :=
    { m with vartype_map := store_vartype m.vartype_map v K,
             bqm := bc.enum.foldl (fun b ic => b.add_variable (v, ic.1) (b1 * (ic.2 : ℚ))) m.bqm }
    with hm1
  have hlook : lookup_vartype m1.vartype_map v = some K := by
    rw [hm1]
    exact lookup_store_vartype_self m.vartype_map v K
  have hres2 : m1.resolve_vartype v none = .ok K := by
    simp [IntegerQuadraticModel.resolve_vartype, hlook]
  have h2 := add_variable_ok_spec m1 v b2 none K hres2
  have hlin : ∀ i, i < bc.length →
      m1.bqm.linear (v, i) = m.bqm.linear (v, i) + b1 * (bc.getD i 0 : ℚ) := by
    intro i hi
    show (bc.enum.foldl (fun b ic => b.add_variable (v, ic.1) (b1 * (ic.2 : ℚ))) m.bqm).linear (v, i)
      = m.bqm.linear (v, i) + b1 * (bc.getD i 0 : ℚ)
    rw [foldl_add_variable_linear, enum_bias_sum v b1 bc i hi]
  refine ⟨m1, bc.enum.map (fun ic => (v, ic.1)), h1, ?_, ?_, hlin, ?_, ?_, ?_⟩
  · rw [← List.enum_map_fst bc, List.map_map]
    rfl
  · simp
  · exact foldl_add_variable_quadratic v b1 bc.enum m.bqm
  · exact foldl_add_variable_offset v b1 bc.enum m.bqm
  · refine ⟨_, _, h2, ?_⟩
    intro i hi
    have hstep : ((binary_coefficients m1.uint_precision m1.int_precision K).enum.foldl
        (fun b ic => b.add_variable (v, ic.1) (b2 * (ic.2 : ℚ))) m1.bqm).linear (v, i)
        = m1.bqm.linear (v, i) + b2 * (bc.getD i 0 : ℚ) := by
      have hbc1 : binary_coefficients m1.uint_precision m1.int_precision K = bc := by
        rw [hm1]
      rw [hbc1, foldl_add_variable_linear, enum_bias_sum v b2 bc i hi]
    show ((binary_coefficients m1.uint_precision m1.int_precision K).enum.foldl
        (fun b ic => b.add_variable (v, ic.1) (b2 * (ic.2 : ℚ))) m1.bqm).linear (v, i)
      = m.bqm.linear (v, i) + (b1 + b2) * (bc.getD i 0 : ℚ)
    rw [hstep, hlin i hi]
    ring

/-- Witness for C5 on a fresh model, label 0 with kind UINT and biases 2
then 3. -/
theorem c5_add_variable_effect_witness :
    IntegerQuadraticModel.resolve_vartype (IntegerQuadraticModel.init : IntegerQuadraticModel ℕ)
        0 (some .UINT) = .ok .UINT
    ∧ add_variable_spec (IntegerQuadraticModel.init : IntegerQuadraticModel ℕ)
        0 2 3 (some .UINT) .UINT :=
  ⟨rfl, c5_add_variable_effect IntegerQuadraticModel.init 0 2 3 (some .UINT) .UINT rfl⟩

/-- One interaction-loop step changes the linear biases only on the
diagonal branch, adding its contribution at the targeted sub-variable. -/
theorem interaction_step_linear {V : Type} [DecidableEq V] (u v : V) (bias : ℚ)
    (u_bc v_bc : List ℤ) (b : BinaryQuadraticModel (V × ℕ)) (a : ℕ × ℕ) (x : V × ℕ) :
    (interaction_step u v bias u_bc v_bc b a).linear x
      = b.linear x + (if (a.1 = a.2 ∧ u = v) ∧ x = (u, a.1)
          then bias * ((u_bc.getD a.1 0 : ℤ) : ℚ) ^ 2 else 0) := by
  by_cases hd : a.1 = a.2 ∧ u = v
  · simp only [interaction_step, if_pos hd, BinaryQuadraticModel.add_variable]
    by_cases hx : x = (u, a.1)
    · rw [if_pos hx, if_pos ⟨hd, hx⟩]
    · rw [if_neg hx, if_neg (fun hc => hx hc.2), add_zero]
  · simp only [interaction_step, if_neg hd, BinaryQuadraticModel.add_interaction]
    rw [if_neg (fun hc => hd hc.1), add_zero]

/-- One interaction-loop step changes the quadratic biases only on the
off-diagonal branch, adding its contribution at the targeted pair. -/
theorem interaction_step_quadratic {V : Type} [DecidableEq V] (u v : V) (bias : ℚ)
    (u_bc v_bc : List ℤ) (b : BinaryQuadraticModel (V × ℕ)) (a : ℕ × ℕ) (p : Sym2 (V × ℕ)) :
    (interaction_step u v bias u_bc v_bc b a).quadratic p
      = b.quadratic p + (if ¬(a.1 = a.2 ∧ u = v) ∧ p = Sym2.mk ((u, a.1), (v, a.2))
          then bias * ((u_bc.getD a.1 0 : ℤ) : ℚ) * ((v_bc.getD a.2 0 : ℤ) : ℚ) else 0) := by
  by_cases hd : a.1 = a.2 ∧ u = v
  · simp only [interaction_step, if_pos hd, BinaryQuadraticModel.add_variable]
    simp [hd]
  · simp only [interaction_step, if_neg hd, BinaryQuadraticModel.add_interaction]
    by_cases hp : p = Sym2.mk ((u, a.1), (v, a.2))
    · simp [hd, hp]
    · simp [hd, hp]

/-- The folded interaction loop merges every diagonal contribution
additively into the linear biases. -/
theorem foldl_interaction_step_linear {V : Type} [DecidableEq V] (u v : V) (bias : ℚ)
    (u_bc v_bc : List ℤ) (L : List (ℕ × ℕ)) (b : BinaryQuadraticModel (V × ℕ)) (x : V × ℕ) :
    (L.foldl (interaction_step u v bias u_bc v_bc) b).linear x
      = b.linear x + (L.map fun ij => if (ij.1 = ij.2 ∧ u = v) ∧ x = (u, ij.1)
          then bias * ((u_bc.getD ij.1 0 : ℤ) : ℚ) ^ 2 else 0).sum := by
  induction L generalizing b with
  | nil => simp
  | cons a L ih =>
    rw [List.foldl_cons, ih, List.map_cons, List.sum_cons, interaction_step_linear]
    ring

/-- The folded interaction loop merges every off-diagonal contribution
additively into the quadratic biases. -/
theorem foldl_interaction_step_quadratic {V : Type} [DecidableEq V] (u v : V) (bias : ℚ)
    (u_bc v_bc : List ℤ) (L : List (ℕ × ℕ)) (b : BinaryQuadraticModel (V × ℕ))
    (p : Sym2 (V × ℕ)) :
    (L.foldl (interaction_step u v bias u_bc v_bc) b).quadratic p
      = b.quadratic p + (L.map fun ij => if ¬(ij.1 = ij.2 ∧ u = v) ∧ p = Sym2.mk ((u, ij.1), (v, ij.2))
          then bias * ((u_bc.getD ij.1 0 : ℤ) : ℚ) * ((v_bc.getD ij.2 0 : ℤ) : ℚ) else 0).sum := by
  induction L generalizing b with
  | nil => simp
  | cons a L ih =>
    rw [List.foldl_cons, ih, List.map_cons, List.sum_cons, interaction_step_quadratic]
    ring

/-- The folded interaction loop never touches the offset. -/
theorem foldl_interaction_step_offset {V : Type} [DecidableEq V] (u v : V) (bias : ℚ)
    (u_bc v_bc : List ℤ) (L : List (ℕ × ℕ)) (b : BinaryQuadraticModel (V × ℕ)) :
    (L.foldl (interaction_step u v bias u_bc v_bc) b).offset = b.offset := by
  induction L generalizing b with
  | nil => rfl
  | cons a L ih =>
    rw [List.foldl_cons, ih]
    by_cases hd : a.1 = a.2 ∧ u = v
    · simp only [interaction_step, if_pos hd, BinaryQuadraticModel.add_variable]
    · simp only [interaction_step, if_neg hd, BinaryQuadraticModel.add_interaction]

/-- A mapped sum over `List.range` is the corresponding `Finset.range` sum. -/
theorem list_sum_range (n : ℕ) (f : ℕ → ℚ) :
    ((List.range n).map f).sum = ∑ i in Finset.range n, f i := by
  induction n with
  | zero => simp
  | succ k ih => simp [List.range_succ, Finset.sum_range_succ, ih]

/-- A mapped sum over the interaction index pairs is the double sum over
both index ranges. -/
theorem pairs_map_sum (nu nv : ℕ) (f : ℕ × ℕ → ℚ) :
    ((interaction_pairs nu nv).map f).sum
      = ∑ i in Finset.range nu, ∑ j in Finset.range nv, f (i, j) := by
  induction nu with
  | zero => simp [interaction_pairs]
  | succ k ih =>
    rw [show interaction_pairs (k + 1) nv
          = interaction_pairs k nv ++ (List.range nv).map (fun j => (k, j)) from by
        simp [interaction_pairs, List.range_succ],
      List.map_append, List.sum_append, ih, Finset.sum_range_succ, List.map_map]
    congr 1

/-- C10: for distinct registered labels, add_interaction is symmetric in
its two label arguments — each cross term lands on the same unordered
sub-variable pair with the same value, so the final model states agree. -/
theorem c10_add_interaction_symmetric {V : Type} [DecidableEq V]
    (m : IntegerQuadraticModel V) (u v : V) (bias : ℚ) (huv : u ≠ v)
    (ku kv : VarType)
    (hu : lookup_vartype m.vartype_map u = some ku)
    (hv : lookup_vartype m.vartype_map v = some kv) :
    m.add_interaction u v bias = m.add_interaction v u bias := by
  simp only [IntegerQuadraticModel.add_interaction, hu, hv]
  congr 1
  congr 1
  apply BinaryQuadraticModel.ext
  · funext x
    rw [foldl_interaction_step_linear, foldl_interaction_step_linear]
    congr 1
    have e1 : ∀ ij : ℕ × ℕ,
        (if (ij.1 = ij.2 ∧ u = v) ∧ x = (u, ij.1)
          then bias * ((binary_coefficients m.uint_precision m.int_precision ku).getD ij.1 0 : ℚ) ^ 2
          else 0) = (0 : ℚ) :=
      fun ij => if_neg (fun hc => huv hc.1.2)
    have e2 : ∀ ij : ℕ × ℕ,
        (if (ij.1 = ij.2 ∧ v = u) ∧ x = (v, ij.1)
          then bias * ((binary_coefficients m.uint_precision m.int_precision kv).getD ij.1 0 : ℚ) ^ 2
          else 0) = (0 : ℚ) :=
      fun ij => if_neg (fun hc => huv hc.1.2.symm)
    rw [List.map_congr_left fun ij _ => e1 ij, List.map_congr_left fun ij _ => e2 ij]
    simp
  · funext p
    rw [foldl_interaction_step_quadratic, foldl_interaction_step_quadratic]
    congr 1
    rw [pairs_map_sum, pairs_map_sum, Finset.sum_comm]
    apply Finset.sum_congr rfl
    intro j _
    apply Finset.sum_congr rfl
    intro i _
    have hswap : Sym2.mk (((v, j) : V × ℕ), ((u, i) : V × ℕ)) = Sym2.mk ((u, i), (v, j)) :=
      Sym2.eq_swap
    rw [hswap]
    have hcond1 : ¬(i = j ∧ u = v) := fun hc => huv hc.2
    have hcond2 : ¬(j = i ∧ v = u) := fun hc => huv hc.2.symm
    by_cases hp : p = Sym2.mk (((u, i) : V × ℕ), ((v, j) : V × ℕ))
    · rw [if_pos ⟨hcond1, hp⟩, if_pos ⟨hcond2, hp⟩]
      ring
    · rw [if_neg (fun hc => hp hc.2), if_neg (fun hc => hp hc.2)]
  · rw [foldl_interaction_step_offset, foldl_interaction_step_offset]

/-- Witness for C10 on a model with a BINARY label 0 and a UINT label 1. -/
theorem c10_add_interaction_symmetric_witness :
    (0 : ℕ) ≠ 1
    ∧ lookup_vartype iqm_c10_state.vartype_map 0 = some .BINARY
    ∧ lookup_vartype iqm_c10_state.vartype_map 1 = some .UINT
    ∧ iqm_c10_state.add_interaction 0 1 3 = iqm_c10_state.add_interaction 1 0 3 :=
  ⟨by decide, by decide, by decide,
    c10_add_interaction_symmetric iqm_c10_state 0 1 3 (by decide) .BINARY .UINT rfl rfl⟩

/-- Membership in the first-seen accumulation. -/
theorem mem_first_seen_from {V : Type} [DecidableEq V] (l : List V) :
    ∀ (acc : List V) (x : V), x ∈ first_seen_from acc l ↔ x ∈ acc ∨ x ∈ l := by
  induction l with
  | nil => intro acc x; simp [first_seen_from]
  | cons a l ih =>
    intro acc x
    show x ∈ first_seen_from (if a ∈ acc then acc else acc ++ [a]) l ↔ _
    rw [ih, List.mem_cons]
    by_cases ha : a ∈ acc
    · rw [if_pos ha]
      have hxa : x = a → x ∈ acc := fun h => h ▸ ha
      tauto
    · rw [if_neg ha, List.mem_append, List.mem_singleton]
      tauto

/-- The first-seen accumulation only appends to its accumulator. -/
theorem first_seen_from_append {V : Type} [DecidableEq V] (l : List V) :
    ∀ acc : List V, ∃ t, first_seen_from acc l = acc ++ t := by
  induction l with
  | nil => intro acc; exact ⟨[], by simp [first_seen_from]⟩
  | cons a l ih =>
    intro acc
    show ∃ t, first_seen_from (if a ∈ acc then acc else acc ++ [a]) l = acc ++ t
    by_cases ha : a ∈ acc
    · rw [if_pos ha]; exact ih acc
    · rw [if_neg ha]
      obtain ⟨t, ht⟩ := ih (acc ++ [a])
      exact ⟨[a] ++ t, by rw [ht, List.append_assoc]⟩

/-- The position of a present element is unchanged by appending. -/
theorem idx_of_append {V : Type} [DecidableEq V] (x : V) (l t : List V) (h : x ∈ l) :
    idx_of x (l ++ t) = idx_of x l := by
  induction l with
  | nil => simp at h
  | cons b l ih =>
    by_cases hb : x = b
    · simp [idx_of, hb]
    · have h' : x ∈ l := (List.mem_cons.mp h).resolve_left hb
      simp [idx_of, hb, ih h']

/-- The position of a present element is inside the list. -/
theorem idx_of_lt_length {V : Type} [DecidableEq V] (x : V) (l : List V) (h : x ∈ l) :
    idx_of x l < l.length := by
  induction l with
  | nil => simp at h
  | cons b l ih =>
    by_cases hb : x = b
    · simp [idx_of, hb]
    · have h' : x ∈ l := (List.mem_cons.mp h).resolve_left hb
      simp only [idx_of, if_neg hb, List.length_cons]
      exact Nat.succ_lt_succ (ih h')

/-- On a duplicate-free list, positions determine elements. -/
theorem idx_of_inj {V : Type} [DecidableEq V] (l : List V) (hl : l.Nodup) (x y : V)
    (hx : x ∈ l) (hy : y ∈ l) (h : idx_of x l = idx_of y l) : x = y := by
  induction l with
  | nil => simp at hx
  | cons b l ih =>
    rw [List.nodup_cons] at hl
    by_cases hxb : x = b <;> by_cases hyb : y = b
    · exact hxb.trans hyb.symm
    · simp [idx_of, hxb, hyb] at h
    · simp [idx_of, hxb, hyb] at h
    · have hx' : x ∈ l := (List.mem_cons.mp hx).resolve_left hxb
      have hy' : y ∈ l := (List.mem_cons.mp hy).resolve_left hyb
      simp only [idx_of, if_neg hxb, if_neg hyb, Nat.add_right_cancel_iff] at h
      exact ih hl.2 hx' hy' h

/-- The first-seen accumulation preserves freedom from duplicates. -/
theorem first_seen_from_nodup {V : Type} [DecidableEq V] (l : List V) :
    ∀ acc : List V, acc.Nodup → (first_seen_from acc l).Nodup := by
  induction l with
  | nil => intro acc h; simpa [first_seen_from] using h
  | cons a l ih =>
    intro acc h
    show (first_seen_from (if a ∈ acc then acc else acc ++ [a]) l).Nodup
    by_cases ha : a ∈ acc
    · rw [if_pos ha]; exact ih acc h
    · rw [if_neg ha]
      apply ih
      rw [List.nodup_append]
      exact ⟨h, List.nodup_singleton a, by simp [ha]⟩

/-- Reading the per-row assignment arrays through the map is reading the
row's sample field (both defaults give the empty list). -/
theorem getD_map_sample (record : List SampleRow) :
    ∀ r, (record.map SampleRow.sample).getD r [] = (record.getD r default_row).sample := by
  induction record with
  | nil => intro r; simp [default_row]
  | cons a l ih =>
    intro r
    cases r with
    | zero => simp
    | succ r => simpa using ih r

/-- Entry of a mapped range at an in-range index. -/
theorem getD_range_map (n i : ℕ) (hi : i < n) (g : ℕ → ℚ) :
    ((List.range n).map g).getD i 0 = g i := by
  rw [List.getD_eq_getElem?_getD, List.getElem?_map, List.getElem?_range hi]
  rfl

/-- Entry of an enumerated list at an in-range index. -/
theorem enumFrom_getD (l : List SampleRow) :
    ∀ (n r : ℕ), r < l.length →
      (l.enumFrom n).getD r (0, default_row) = (n + r, l.getD r default_row) := by
  induction l with
  | nil => intro n r hr; simp at hr
  | cons a l ih =>
    intro n r hr
    cases r with
    | zero => simp [List.enumFrom]
    | succ r =>
      have hr' : r < l.length := by simpa using hr
      rw [show List.enumFrom n (a :: l) = (n, a) :: List.enumFrom (n + 1) l from rfl,
        List.getD_cons_succ, List.getD_cons_succ, ih (n + 1) r hr']
      congr 1
      omega

/-- Second components of enumerated entries are entries of the list. -/
theorem mem_enumFrom_snd {α : Type} (l : List α) :
    ∀ (n : ℕ) (p : ℕ × α), p ∈ l.enumFrom n → p.2 ∈ l := by
  induction l with
  | nil => intro n p hp; simp [List.enumFrom] at hp
  | cons a l ih =>
    intro n p hp
    rw [show List.enumFrom n (a :: l) = (n, a) :: List.enumFrom (n + 1) l from rfl,
      List.mem_cons] at hp
    rcases hp with hp | hp
    · rw [hp]; exact List.mem_cons_self a l
    · exact List.mem_cons_of_mem a (ih (n + 1) p hp)

/-- Invariant of the reconstruction loop: starting from any OrderedDict
state and matrix, the final key list is the first-seen extension, and
every matrix entry has gained exactly the contributions aimed at its
column, where a variable's column is its label's position in the final
key list (the position is assigned when the label is first seen and is
stable afterwards, because the key list only grows by appending). -/
theorem recon_loop_go {V : Type} [DecidableEq V] (m : IntegerQuadraticModel V)
    (samples : List (List ℚ)) (vs : List (V × ℕ)) :
    ∀ (n : ℕ) (ov : List V) (mat : ℕ → ℕ → ℚ),
    ((vs.enumFrom n).foldl (recon_step m samples) (ov, mat)).1
        = first_seen_from ov (vs.map Prod.fst)
    ∧ ∀ r c, ((vs.enumFrom n).foldl (recon_step m samples) (ov, mat)).2 r c
        = mat r c + ((vs.enumFrom n).map fun iv =>
            if idx_of iv.2.1 (first_seen_from ov (vs.map Prod.fst)) = c
            then (samples.getD r []).getD iv.1 0 * ((sub_coefficient m iv.2 : ℤ) : ℚ)
            else 0).sum := by
  induction vs with
  | nil =>
    intro n ov mat
    exact ⟨rfl, fun r c => by simp [List.enumFrom]⟩
  | cons x vs ih =>
    intro n ov mat
    rw [show List.enumFrom n (x :: vs) = (n, x) :: List.enumFrom (n + 1) vs from rfl,
      List.foldl_cons]
    have hstep : recon_step m samples (ov, mat) (n, x)
        = (if x.1 ∈ ov then ov else ov ++ [x.1],
           fun r col =>
             if col = idx_of x.1 (if x.1 ∈ ov then ov else ov ++ [x.1])
             then mat r col + (samples.getD r []).getD n 0 * ((sub_coefficient m x : ℤ) : ℚ)
             else mat r col) := rfl
    rw [hstep]
    obtain ⟨ih1, ih2⟩ := ih (n + 1) (if x.1 ∈ ov then ov else ov ++ [x.1])
      (fun r col =>
        if col = idx_of x.1 (if x.1 ∈ ov then ov else ov ++ [x.1])
        then mat r col + (samples.getD r []).getD n 0 * ((sub_coefficient m x : ℤ) : ℚ)
        else mat r col)
    have hF : first_seen_from ov ((x :: vs).map Prod.fst)
        = first_seen_from (if x.1 ∈ ov then ov else ov ++ [x.1]) (vs.map Prod.fst) := rfl
    have hxov₁ : x.1 ∈ (if x.1 ∈ ov then ov else ov ++ [x.1]) := by
      by_cases hx : x.1 ∈ ov
      · rw [if_pos hx]; exact hx
      · rw [if_neg hx]; simp
    obtain ⟨t, ht⟩ := first_seen_from_append (vs.map Prod.fst)
      (if x.1 ∈ ov then ov else ov ++ [x.1])
    have hidx : idx_of x.1
        (first_seen_from (if x.1 ∈ ov then ov else ov ++ [x.1]) (vs.map Prod.fst))
        = idx_of x.1 (if x.1 ∈ ov then ov else ov ++ [x.1]) := by
      rw [ht, idx_of_append x.1 _ t hxov₁]
    refine ⟨by rw [ih1, hF], ?_⟩
    intro r c
    rw [ih2 r c, List.map_cons, List.sum_cons, hF]
    dsimp only
    rw [hidx]
    by_cases hc : c = idx_of x.1 (if x.1 ∈ ov then ov else ov ++ [x.1])
    · rw [if_pos hc, if_pos hc.symm]
      ring
    · rw [if_neg hc,
        if_neg (show ¬ idx_of x.1 (if x.1 ∈ ov then ov else ov ++ [x.1]) = c from
          fun hh => hc hh.symm)]
      ring

/-- Entry of a mapped list at an in-range index, any defaults. -/
theorem getD_map_of_lt {α β : Type} (f : α → β) (l : List α) (d : β) (d' : α) :
    ∀ r : ℕ, r < l.length → (l.map f).getD r d = f (l.getD r d') := by
  induction l with
  | nil => intro r hr; simp at hr
  | cons a l ih =>
    intro r hr
    cases r with
    | zero => simp
    | succ r =>
      have hr' : r < l.length := by simpa using hr
      simpa using ih r hr'

/-- The reconstruction of a wellformed sampler result satisfies everything
C2 asserts: the guard passes, the output columns are the distinct original
labels in first-seen order, rows/energies/occurrence counts and the
info/vartype metadata pass through unchanged, and every label's column
holds the coefficient-weighted sum of its sub-variables' assignment bits. -/
theorem process_sampleset_spec {V I T : Type} [DecidableEq V]
    (m : IntegerQuadraticModel V) (ss : SampleSet (V × ℕ) I T)
    (h : sampleset_wellformed m ss) : sample_reconstruction_spec m ss := by
  obtain ⟨h1, h2, _h3, _h4⟩ := h
  have hguard : (ss.variable_labels.all (var_ok m)
      && ((first_seen ss.variable_labels).length == m.vartype_map.length)) = true := by
    rw [h1]
    simp [h2]
  set res := recon_loop m (ss.record.map SampleRow.sample) ss.variable_labels with hres
  have hres1 : res.1 = first_seen ss.variable_labels :=
    (recon_loop_go m (ss.record.map SampleRow.sample) ss.variable_labels 0 []
      (fun _ _ => 0)).1
  have hres2 : ∀ r c, res.2 r c = ((ss.variable_labels.enumFrom 0).map fun iv =>
      if idx_of iv.2.1 (first_seen ss.variable_labels) = c
      then ((ss.record.map SampleRow.sample).getD r []).getD iv.1 0
        * ((sub_coefficient m iv.2 : ℤ) : ℚ)
      else 0).sum := by
    intro r c
    have hgo := (recon_loop_go m (ss.record.map SampleRow.sample) ss.variable_labels 0 []
      (fun _ _ => 0)).2 r c
    simpa using hgo
  have hout : m.process_sampleset ss = some
      { record := ss.record.enum.map fun ir =>
          { sample := (List.range res.1.length).map fun col => res.2 ir.1 col,
            energy := ir.2.energy,
            num_occurrences := ir.2.num_occurrences },
        variable_labels := res.1, info := ss.info, vartype := ss.vartype } := by
    unfold IntegerQuadraticModel.process_sampleset
    rw [if_pos hguard]
  have hrowlen : (ss.record.enum.map fun ir =>
      ({ sample := (List.range res.1.length).map fun col => res.2 ir.1 col,
         energy := ir.2.energy,
         num_occurrences := ir.2.num_occurrences } : SampleRow)).length = ss.record.length := by
    rw [List.length_map, List.enum_length]
  have hrow : ∀ r, r < ss.record.length →
      (ss.record.enum.map fun ir =>
        ({ sample := (List.range res.1.length).map fun col => res.2 ir.1 col,
           energy := ir.2.energy,
           num_occurrences := ir.2.num_occurrences } : SampleRow)).getD r default_row
      = { sample := (List.range res.1.length).map fun col => res.2 r col,
          energy := (ss.record.getD r default_row).energy,
          num_occurrences := (ss.record.getD r default_row).num_occurrences } := by
    intro r hr
    have hr' : r < ss.record.enum.length := by rw [List.enum_length]; exact hr
    rw [getD_map_of_lt _ _ _ (0, default_row) r hr']
    have he : ss.record.enum.getD r (0, default_row) = (r, ss.record.getD r default_row) := by
      have := enumFrom_getD ss.record 0 r hr
      simpa using this
    rw [he]
  refine ⟨_, hout, hres1, ?_, hrowlen, rfl, rfl, ?_, ?_⟩
  · rw [hres1]
    exact first_seen_from_nodup _ [] List.nodup_nil
  · intro r hr
    rw [hrow r hr]
    exact ⟨rfl, rfl⟩
  · intro r hr l hl
    rw [hrow r hr]
    have hcol : idx_of l res.1 < res.1.length := by
      rw [hres1]
      exact idx_of_lt_length l _ hl
    show ((List.range res.1.length).map fun col => res.2 r col).getD (idx_of l res.1) 0
      = row_label_total m ss r l
    rw [getD_range_map res.1.length (idx_of l res.1) hcol, hres2 r (idx_of l res.1), hres1]
    have hfun : ∀ iv ∈ ss.variable_labels.enumFrom 0,
        (if idx_of iv.2.1 (first_seen ss.variable_labels)
            = idx_of l (first_seen ss.variable_labels)
          then ((ss.record.map SampleRow.sample).getD r []).getD iv.1 0
            * ((sub_coefficient m iv.2 : ℤ) : ℚ)
          else 0)
        = (if iv.2.1 = l
            then ((ss.record.getD r default_row).sample).getD iv.1 0
              * ((sub_coefficient m iv.2 : ℤ) : ℚ)
            else 0) := by
      intro iv hiv
      have hmem : iv.2.1 ∈ first_seen ss.variable_labels := by
        rw [first_seen, mem_first_seen_from]
        exact Or.inr (List.mem_map_of_mem Prod.fst (mem_enumFrom_snd ss.variable_labels 0 iv hiv))
      rw [getD_map_sample]
      by_cases hil : iv.2.1 = l
      · rw [if_pos (by rw [hil]), if_pos hil]
      · rw [if_neg hil,
          if_neg (fun hidx => hil (idx_of_inj (first_seen ss.variable_labels)
            (first_seen_from_nodup _ [] List.nodup_nil) iv.2.1 l hmem hl hidx))]
    rw [List.map_congr_left hfun]
    rfl

/-- Casting an integer list sum to the rationals equals summing the casts. -/
theorem list_sum_intCast (L : List ℤ) : ((L.sum : ℤ) : ℚ) = (L.map fun z : ℤ => (z : ℚ)).sum := by
  induction L with
  | nil => simp
  | cons a L ih =>
    rw [List.sum_cons, List.map_cons, List.sum_cons, ← ih]
    push_cast
    ring

/-- An in-range getD is an element of the list. -/
theorem getD_mem_of_lt {α : Type} (l : List α) (n : ℕ) (d : α) (h : n < l.length) :
    l.getD n d ∈ l := by
  rw [List.getD_eq_getElem?_getD l n d, List.getElem?_eq_getElem h]
  exact List.getElem_mem h

/-- For 0/1 assignment rows the rational reconstruction value is the cast
of the integer dot product: no fractional part ever appears. -/
theorem row_label_total_intCast {V I T : Type} [DecidableEq V]
    (m : IntegerQuadraticModel V) (ss : SampleSet (V × ℕ) I T) (r : ℕ) (l : V)
    (h4 : ∀ row ∈ ss.record, ∀ q ∈ row.sample, q = 0 ∨ q = 1) (hr : r < ss.record.length) :
    row_label_total m ss r l = ((int_row_label_total m ss r l : ℤ) : ℚ) := by
  unfold row_label_total int_row_label_total
  rw [list_sum_intCast, List.map_map]
  apply congrArg List.sum
  apply List.map_congr_left
  intro iv _
  dsimp only [Function.comp]
  by_cases hil : iv.2.1 = l
  · have hbit : ((ss.record.getD r default_row).sample).getD iv.1 0 = 0
        ∨ ((ss.record.getD r default_row).sample).getD iv.1 0 = 1 := by
      by_cases hio : iv.1 < ((ss.record.getD r default_row).sample).length
      · exact h4 _ (getD_mem_of_lt ss.record r default_row hr)
          _ (getD_mem_of_lt _ iv.1 0 hio)
      · left
        have hnone : ((ss.record.getD r default_row).sample)[iv.1]? = none :=
          List.getElem?_eq_none (by omega)
        rw [List.getD_eq_getElem?_getD ((ss.record.getD r default_row).sample) iv.1 0, hnone]
        rfl
    rcases hbit with hb | hb
    · rw [hb]
      simp [hil]
    · rw [hb]
      simp [hil]
  · simp [hil]

/-- Counterexample to C9's width sentence: the reconstructed samples are
stored into a record column of fixed dtype 'i' (32 signed bits) no matter
the configured precisions, while precision 32 is an accepted
configuration under which the coefficient 2^31 — the reconstructed value
of an assignment setting only the top bit — exceeds the dtype's range. -/
theorem c9_width_counterexample :
    IntegerQuadraticModel.set_uint_precision (IntegerQuadraticModel.init : IntegerQuadraticModel ℕ) 32
      = .ok { (IntegerQuadraticModel.init : IntegerQuadraticModel ℕ) with uint_precision := 32 }
    ∧ (binary_coefficients 32 5 .UINT).getD 31 0 = 2 ^ 31
    ∧ ¬ dtype_can_hold ((binary_coefficients 32 5 .UINT).getD 31 0) := by
  have hc : (binary_coefficients 32 5 .UINT).getD 31 0 = 2 ^ 31 := by
    show ((List.range (32 : ℤ).toNat).map fun i => (2 : ℤ) ^ i).getD 31 0 = 2 ^ 31
    rw [show (32 : ℤ).toNat = 32 from rfl, List.getD_eq_getElem?_getD, List.getElem?_map,
      List.getElem?_range (by omega)]
    rfl
  refine ⟨rfl, hc, ?_⟩
  rw [hc]
  unfold dtype_can_hold record_sample_dtype_bits
  intro hcon
  have h2 := hcon.2
  norm_num at h2

/-- C9 as amended: reconstruction is exact — every returned value is the
integer dot product of the row's 0/1 assignment bits with the label's
expansion coefficients, with no rounding — but the reconstructed values
are stored into a record column of fixed 32-bit signed dtype, which is
wide enough for `2^max(uint_precision, int_precision)` only when both
configured precisions are at most 30 (the defaults satisfy this), not for
every configuration. -/
theorem c9_exactness_and_width {V I T : Type} [DecidableEq V]
    (m : IntegerQuadraticModel V) (ss : SampleSet (V × ℕ) I T)
    (h : sampleset_wellformed m ss) : sample_exactness_width_spec m ss := by
  constructor
  · intro r hr l hl
    obtain ⟨out, hout, hvars, _, _, _, _, _, hval⟩ := process_sampleset_spec m ss h
    rw [hout]
    show ((out.record.getD r default_row).sample).getD (idx_of l out.variable_labels) 0 = _
    rw [hval r hr l hl, row_label_total_intCast m ss r l h.2.2.2 hr]
  · intro h30u h30i
    have hmax : max m.uint_precision.toNat m.int_precision.toNat ≤ 30 :=
      Nat.max_le.mpr ⟨h30u, h30i⟩
    have hle : (2 : ℤ) ^ max m.uint_precision.toNat m.int_precision.toNat ≤ 2 ^ 30 :=
      pow_le_pow_right₀ (by norm_num) hmax
    have hpos : (0 : ℤ) ≤ 2 ^ max m.uint_precision.toNat m.int_precision.toNat :=
      pow_nonneg (by norm_num) _
    unfold dtype_can_hold record_sample_dtype_bits
    constructor
    · have hneg : -((2 : ℤ) ^ (32 - 1)) ≤ 0 := by norm_num
      omega
    · have h30 : (2 : ℤ) ^ 30 ≤ 2 ^ (32 - 1) - 1 := by norm_num
      omega

/-- Witness for the amended C9: one INT label at precision 3, one row with
bits 1, 0, 1 reconstructing to the integer 1 - 4 = -3. -/
theorem c9_exactness_and_width_witness :
    sampleset_wellformed iqm_c9_state ss_c9 ∧ sample_exactness_width_spec iqm_c9_state ss_c9 :=
  ⟨by constructor
      · decide
      · refine ⟨by decide, ?_, ?_⟩
        · intro row hrow
          fin_cases hrow; decide
        · intro row hrow
          fin_cases hrow; intro q hq; fin_cases hq
          · norm_num
          · norm_num
          · norm_num,
   c9_exactness_and_width iqm_c9_state ss_c9
     (by constructor
         · decide
         · refine ⟨by decide, ?_, ?_⟩
           · intro row hrow
             fin_cases hrow; decide
           · intro row hrow
             fin_cases hrow; intro q hq; fin_cases hq
             · norm_num
             · norm_num
             · norm_num)⟩

/-- Counterexample to C2 as stated: at the accepted configuration
uint_precision = 32, with a wellformed sampler result (every sub-variable
of the registered UINT label listed, a 0/1 row setting only bit 31), the
value the claim asserts for the label's output column is the exact sum
2^31 — but the record column the source stores the reconstructed samples
into (the fixed 32-bit signed dtype of line 221, `dtype_can_hold`) cannot
hold that value, so the program cannot return the asserted sum: numpy's
out-of-range float-to-int32 cast produces a platform-dependent garbled
value instead. -/
theorem c2_width_counterexample :
    sampleset_wellformed iqm_c2_wide ss_c2_wide
    ∧ int_row_label_total iqm_c2_wide ss_c2_wide 0 0 = 2 ^ 31
    ∧ row_label_total iqm_c2_wide ss_c2_wide 0 0 = ((2 ^ 31 : ℤ) : ℚ)
    ∧ ¬ dtype_can_hold (int_row_label_total iqm_c2_wide ss_c2_wide 0 0) := by
  have hw : sampleset_wellformed iqm_c2_wide ss_c2_wide := by
    unfold sampleset_wellformed
    decide
  have hint : int_row_label_total iqm_c2_wide ss_c2_wide 0 0 = 2 ^ 31 := by decide
  refine ⟨hw, hint, ?_, ?_⟩
  · rw [row_label_total_intCast iqm_c2_wide ss_c2_wide 0 0 hw.2.2.2 (by decide), hint]
  · rw [hint]
    unfold dtype_can_hold record_sample_dtype_bits
    decide

/-- C2 as amended: for a wellformed sampler result over registered
sub-variables whose per-label reconstructed sums all fit the record's
fixed 32-bit signed sample column, sample returns one column per distinct
original label in first-seen order, each row's value for a label being
exactly the sum of the label's 0/1 sub-variable assignments weighted by
its kind's coefficients (an integer the column holds losslessly — within
the column's range the float64 accumulation and the integer store are
both exact, so the exact-arithmetic model coincides with the program);
row count, energies, occurrence counts, the info blob and the value-type
tag pass through unchanged.  For configurations whose sums exceed the
column (`c2_width_counterexample`), the asserted exact value cannot be
returned. -/
theorem c2_sample_reconstruction_in_range {V I T : Type} [DecidableEq V]
    (m : IntegerQuadraticModel V) (ss : SampleSet (V × ℕ) I T)
    (h : sampleset_wellformed m ss)
    (hfit : ∀ r, r < ss.record.length → ∀ l ∈ first_seen ss.variable_labels,
        dtype_can_hold (int_row_label_total m ss r l)) :
    sample_reconstruction_spec m ss
    ∧ ∀ r, r < ss.record.length → ∀ l ∈ first_seen ss.variable_labels,
        out_sample_value (m.process_sampleset ss) r l
          = ((int_row_label_total m ss r l : ℤ) : ℚ)
        ∧ dtype_can_hold (int_row_label_total m ss r l) := by
  refine ⟨process_sampleset_spec m ss h, ?_⟩
  intro r hr l hl
  refine ⟨?_, hfit r hr l hl⟩
  obtain ⟨out, hout, _, _, _, _, _, _, hval⟩ := process_sampleset_spec m ss h
  rw [hout]
  show ((out.record.getD r default_row).sample).getD (idx_of l out.variable_labels) 0 = _
  rw [hval r hr l hl, row_label_total_intCast m ss r l h.2.2.2 hr]

/-- Witness for the amended C2: one UINT label at precision 2, one row
with both bits set (value 1 + 2 = 3, comfortably inside the column). -/
theorem c2_sample_reconstruction_in_range_witness :
    sampleset_wellformed iqm_c2_state ss_c2
    ∧ sample_reconstruction_spec iqm_c2_state ss_c2
    ∧ out_sample_value (iqm_c2_state.process_sampleset ss_c2) 0 0
        = ((int_row_label_total iqm_c2_state ss_c2 0 0 : ℤ) : ℚ)
    ∧ dtype_can_hold (int_row_label_total iqm_c2_state ss_c2 0 0) :=
  have hw : sampleset_wellformed iqm_c2_state ss_c2 := by
    constructor
    · decide
    · refine ⟨by decide, ?_, ?_⟩
      · intro row hrow
        fin_cases hrow; decide
      · intro row hrow
        fin_cases hrow; intro q hq; fin_cases hq; norm_num; norm_num
  have hfs : first_seen ss_c2.variable_labels = [0] := by decide
  have hlen : ss_c2.record.length = 1 := by decide
  have hfit : ∀ r, r < ss_c2.record.length → ∀ l ∈ first_seen ss_c2.variable_labels,
      dtype_can_hold (int_row_label_total iqm_c2_state ss_c2 r l) := by
    intro r hr l hl
    rw [hfs, List.mem_singleton] at hl
    rw [hlen] at hr
    have hr0 : r = 0 := by omega
    subst hr0
    subst hl
    unfold dtype_can_hold record_sample_dtype_bits
    decide
  have h := c2_sample_reconstruction_in_range iqm_c2_state ss_c2 hw hfit
  ⟨hw, h.1, (h.2 0 (by decide) 0 (by decide)).1, (h.2 0 (by decide) 0 (by decide)).2⟩
